import Mathlib

/-!
Shallow embedding of `src/carnet_prises.py` (a single-file catch-log
application) and proofs about its record persistence and parsing layer.

Text is modelled as `List Char`; Python `str` helpers (`strip`, `split`,
`zfill`, `replace`) are reimplemented on `List Char`.  `datetime.strptime`
with the formats `%H:%M`, `%Y-%m-%d`, `%d/%m/%Y`, `%d-%m-%Y` is modelled by
the regular expressions Python compiles for those directives (`%H`:
`2[0-3]|[0-1]\d|\d`, `%M`: `[0-5]\d|\d`, `%Y`: `\d\d\d\d`, `%d`:
`3[01]|[1-2]\d|0[1-9]|[1-9]`, `%m`: `1[0-2]|0[1-9]|[1-9]`), full-match
semantics, together with the calendar validation done by the `datetime`
constructor.  Fallible parsing is `Option`; "today"/"now" and upload
timestamps are explicit parameters; the pandas `DataFrame` is a header plus
association-list rows; the CSV file on disk is `Option DataFrame` (`none` =
file absent); a save that hits `PermissionError` is a `locked` flag.
-/

namespace CarnetPrises

/-! ## Python string helpers -/

/-- Whitespace stripped by Python `str.strip()` (the ASCII part). -/
def isSpaceChar (c : Char) : Bool :=
  c = ' ' ∨ c = '\t' ∨ c = '\n' ∨ c = '\r' ∨ c = '\x0b' ∨ c = '\x0c'

/-- Python `s.strip()`. -/
def pyStrip (s : List Char) : List Char :=
  ((s.dropWhile isSpaceChar).reverse.dropWhile isSpaceChar).reverse

/-- Python `s.split(sep)` for a one-character separator:
`"".split(":") = [""]`, `":".split(":") = ["", ""]`, etc. -/
def splitOnChar (sep : Char) : List Char → List (List Char)
  | [] => [[]]
  | c :: rest =>
    if c = sep then [] :: splitOnChar sep rest
    else
      match splitOnChar sep rest with
      | [] => [[c]]
      | p :: ps => (c :: p) :: ps

/-- Python `s.zfill(2)`: left-pad with zeros to width 2, keeping a leading
sign in front of the inserted zeros. -/
def zfill2 : List Char → List Char
  | [] => ['0', '0']
  | [c] => if c = '+' ∨ c = '-' then [c, '0'] else ['0', c]
  | c1 :: c2 :: rest => c1 :: c2 :: rest

/-- Numeric value of a digit character. -/
def digitVal (c : Char) : Nat := c.toNat - 48

/-! ## Time parsing (`parse_time_from_text`, src lines 58-72) -/

/-- One component of Python `strptime`'s `%H` / `%M`: either a single digit,
or exactly two digits whose value is within `bound` (`%H` compiles to the
pattern `2[0-3]|[0-1]\d|\d`, i.e. two-digit values 00-23 or one digit;
`%M` to `[0-5]\d|\d`, i.e. two-digit values 00-59 or one digit). -/
def hmToken (bound : Nat) : List Char → Option Nat
  | [c] => if c.isDigit then some (digitVal c) else none
  | [c1, c2] =>
    if c1.isDigit ∧ c2.isDigit ∧ 10 * digitVal c1 + digitVal c2 ≤ bound then
      some (10 * digitVal c1 + digitVal c2)
    else none
  | _ => none

/-- `datetime.strptime(s, "%H:%M")`, returning the parsed (hour, minute) or
`none` where Python raises `ValueError`.  A full match of `%H:%M` forces the
string to decompose as `hour ++ ":" ++ minute` with both components
digit-only, which is exactly a two-element colon-split. -/
def strptimeHM (s : List Char) : Option (Nat × Nat) :=
  match splitOnChar ':' s with
  | [h, m] =>
    match hmToken 23 h, hmToken 59 m with
    | some hh, some mm => some (hh, mm)
    | _, _ => none
  | _ => none

/-- The normalisation step of `parse_time_from_text` (src lines 65-70):
when the stripped text contains a colon and splits into exactly two parts,
both parts are `zfill(2)`-padded (`7:5` becomes `07:05`). -/
def normalizeHM (s : List Char) : List Char :=
  match splitOnChar ':' s with
  | [a, b] => zfill2 a ++ ':' :: zfill2 b
  | _ => s

/-- `parse_time_from_text` (src lines 58-72): strip, normalise, then
`strptime "%H:%M"`.  `none` models the raised `ValueError`
(the spec's `InvalidTimeFormat`). -/
def parse_time_from_text (field_value : String) : Option (Nat × Nat) :=
  strptimeHM (normalizeHM (pyStrip field_value.toList))

/-- The literal shape `HH:MM`: two digits giving an hour at most 23, a
colon, and two digits giving a minute at most 59. -/
def matchesHHMM : List Char → Bool
  | [h1, h2, c, m1, m2] =>
    c = ':' ∧ h1.isDigit ∧ h2.isDigit ∧ m1.isDigit ∧ m2.isDigit ∧
      10 * digitVal h1 + digitVal h2 ≤ 23 ∧ 10 * digitVal m1 + digitVal m2 ≤ 59
  | _ => false

theorem splitOnChar_not_mem (sep : Char) (s : List Char) :
    ∀ p ∈ splitOnChar sep s, sep ∉ p := by
  induction s with
  | nil => simp [splitOnChar]
  | cons c rest ih =>
    intro p hp
    by_cases hc : c = sep
    · simp only [splitOnChar, if_pos hc, List.mem_cons] at hp
      rcases hp with h | h
      · simp [h]
      · exact ih p h
    · simp only [splitOnChar, if_neg hc] at hp
      rcases hrec : splitOnChar sep rest with _ | ⟨q, qs⟩
      · rw [hrec] at hp
        simp only [List.mem_singleton] at hp
        subst hp
        intro hmem
        exact hc (List.mem_singleton.mp hmem).symm
      · rw [hrec] at hp
        simp only [List.mem_cons] at hp
        rcases hp with h | h
        · subst h
          intro hmem
          rcases List.mem_cons.mp hmem with h | h
          · exact hc h.symm
          · exact ih q (by rw [hrec]; exact List.mem_cons_self q qs) h
        · exact ih p (by rw [hrec]; exact List.mem_cons_of_mem q h)

theorem splitOnChar_ne_nil (sep : Char) (s : List Char) :
    splitOnChar sep s ≠ [] := by
  induction s with
  | nil => simp [splitOnChar]
  | cons c rest ih =>
    by_cases hc : c = sep
    · simp [splitOnChar, hc]
    · simp only [splitOnChar, if_neg hc]
      rcases hrec : splitOnChar sep rest with _ | ⟨q, qs⟩
      · simp
      · simp

theorem splitOnChar_no_sep (sep : Char) (s : List Char) (h : sep ∉ s) :
    splitOnChar sep s = [s] := by
  induction s with
  | nil => rfl
  | cons c rest ih =>
    have hc : ¬c = sep := fun hh => h (hh ▸ List.mem_cons_self c rest)
    have hrest : sep ∉ rest := fun hh => h (List.mem_cons_of_mem c hh)
    simp only [splitOnChar, if_neg hc, ih hrest]

theorem splitOnChar_append (sep : Char) (a b : List Char) (h : sep ∉ a) :
    splitOnChar sep (a ++ sep :: b) = a :: splitOnChar sep b := by
  induction a with
  | nil => simp [splitOnChar]
  | cons c rest ih =>
    have hc : ¬c = sep := fun hh => h (hh ▸ List.mem_cons_self c rest)
    have hrest : sep ∉ rest := fun hh => h (List.mem_cons_of_mem c hh)
    simp only [List.cons_append, splitOnChar, if_neg hc, List.append_eq,
      ih hrest]

theorem mem_zfill2 (c : Char) (s : List Char) (h : c ∈ zfill2 s) :
    c ∈ s ∨ c = '0' := by
  match s with
  | [] =>
    simp only [zfill2, List.mem_cons, List.not_mem_nil, or_false] at h
    rcases h with h | h <;> simp [h]
  | [x] =>
    simp only [zfill2] at h
    split at h
    · simp_all
    · simp_all
      tauto
  | x :: y :: rest => exact Or.inl h

theorem zfill2_length (s : List Char) : 2 ≤ (zfill2 s).length := by
  match s with
  | [] => simp [zfill2]
  | [x] => simp only [zfill2]; split; simp; simp
  | x :: y :: rest => simp [zfill2]

theorem hmToken_of_length_two (bound : Nat) (s : List Char) (v : Nat)
    (hlen : 2 ≤ s.length) (h : hmToken bound s = some v) :
    ∃ c1 c2, s = [c1, c2] ∧ c1.isDigit = true ∧ c2.isDigit = true ∧
      10 * digitVal c1 + digitVal c2 ≤ bound := by
  match s with
  | [] => simp at hlen
  | [c] => simp at hlen
  | [c1, c2] =>
    refine ⟨c1, c2, rfl, ?_⟩
    simp only [hmToken] at h
    split at h
    · rename_i hcond
      exact ⟨hcond.1, hcond.2.1, hcond.2.2⟩
    · exact absurd h (by simp)
  | c1 :: c2 :: c3 :: rest => simp [hmToken] at h

/-- The strict time parser only succeeds when its normalised input has the
literal `HH:MM` shape. -/
theorem strptime_success_matches (t : List Char) (p : Nat × Nat)
    (h : strptimeHM (normalizeHM t) = some p) :
    matchesHHMM (normalizeHM t) = true := by
  rcases hsplit : splitOnChar ':' t with _ | ⟨a, rest⟩
  · exact absurd hsplit (splitOnChar_ne_nil ':' t)
  · rcases rest with _ | ⟨b, rest2⟩
    · -- one part: no colon in t, normalizeHM is the identity
      have hn : normalizeHM t = t := by simp [normalizeHM, hsplit]
      rw [hn, strptimeHM, hsplit] at h
      exact absurd h (by simp)
    · rcases rest2 with _ | ⟨d, rest3⟩
      · -- exactly two parts: both are zero-padded
        have hn : normalizeHM t = zfill2 a ++ ':' :: zfill2 b := by
          simp [normalizeHM, hsplit]
        have ha : ':' ∉ a :=
          splitOnChar_not_mem ':' t a (by rw [hsplit]; simp)
        have hb : ':' ∉ b :=
          splitOnChar_not_mem ':' t b (by rw [hsplit]; simp)
        have ha2 : ':' ∉ zfill2 a := by
          intro hmem
          rcases mem_zfill2 ':' a hmem with h1 | h1
          · exact ha h1
          · simp at h1
        have hb2 : ':' ∉ zfill2 b := by
          intro hmem
          rcases mem_zfill2 ':' b hmem with h1 | h1
          · exact hb h1
          · simp at h1
        have hsplit2 : splitOnChar ':' (zfill2 a ++ ':' :: zfill2 b)
            = [zfill2 a, zfill2 b] := by
          rw [splitOnChar_append ':' _ _ ha2, splitOnChar_no_sep ':' _ hb2]
        rw [hn, strptimeHM, hsplit2] at h
        have h2 : (match hmToken 23 (zfill2 a), hmToken 59 (zfill2 b) with
            | some hh, some mm => some (hh, mm)
            | _, _ => (none : Option (Nat × Nat))) = some p := h
        rcases hta : hmToken 23 (zfill2 a) with _ | va <;>
          rcases htb : hmToken 59 (zfill2 b) with _ | vb <;>
            rw [hta, htb] at h2
        · exact absurd h2 (by simp)
        · exact absurd h2 (by simp)
        · exact absurd h2 (by simp)
        · obtain ⟨c1, c2, he1, hd1, hd2, hv1⟩ :=
            hmToken_of_length_two 23 (zfill2 a) va (zfill2_length a) hta
          obtain ⟨d1, d2, he2, hd3, hd4, hv2⟩ :=
            hmToken_of_length_two 59 (zfill2 b) vb (zfill2_length b) htb
          rw [hn, he1, he2]
          simp only [List.cons_append, List.nil_append, matchesHHMM]
          simp [hd1, hd2, hd3, hd4, hv1, hv2]
      · -- three or more parts: normalizeHM is the identity, no full match
        have hn : normalizeHM t = t := by simp [normalizeHM, hsplit]
        rw [hn, strptimeHM, hsplit] at h
        exact absurd h (by simp)

/-- C3: `parse_entered_time` zero-pads single-digit hour/minute components
before parsing as `HH:MM`, so `"7:5"` succeeds and equals `"07:05"`;
`"25:99"` fails; and every input whose normalised form does not match
`HH:MM` fails with `InvalidTimeFormat` (modelled as `none`). -/
theorem C3_parse_entered_time :
    parse_time_from_text "7:5" = some (7, 5) ∧
    parse_time_from_text "7:5" = parse_time_from_text "07:05" ∧
    parse_time_from_text "25:99" = none ∧
    ∀ s : String, matchesHHMM (normalizeHM (pyStrip s.toList)) = false →
      parse_time_from_text s = none := by
  refine ⟨by decide, by decide, by decide, ?_⟩
  intro s hno
  rcases hp : parse_time_from_text s with _ | p
  · rfl
  · rw [parse_time_from_text] at hp
    rw [strptime_success_matches _ p hp] at hno
    exact absurd hno (by simp)

/-- Witness for C3's universal part at the concrete input `"aaaa"`. -/
theorem C3_parse_entered_time_witness : parse_time_from_text "aaaa" = none :=
  C3_parse_entered_time.2.2.2 "aaaa" (by decide)

/-! ## Date parsing (`parse_date_str`, src lines 30-40) -/

/-- A Python `datetime.date`. -/
structure PDate where
  year : Nat
  month : Nat
  day : Nat
deriving DecidableEq

/-- Gregorian leap year, as implemented by Python's `datetime`. -/
def isLeapYear (y : Nat) : Bool :=
  y % 4 == 0 && (y % 100 != 0 || y % 400 == 0)

def daysInMonth (y m : Nat) : Nat :=
  if m = 2 then (if isLeapYear y then 29 else 28)
  else if m = 4 ∨ m = 6 ∨ m = 9 ∨ m = 11 then 30
  else 31

/-- The dates the `datetime.date` constructor accepts
(`MINYEAR = 1`, `MAXYEAR = 9999`). -/
def validDate (d : PDate) : Bool :=
  1 ≤ d.year ∧ d.year ≤ 9999 ∧ 1 ≤ d.month ∧ d.month ≤ 12 ∧
    1 ≤ d.day ∧ d.day ≤ daysInMonth d.year d.month

/-- `strptime`'s `%d` / `%m` component: one digit, or two digits followed by
whatever comes next.  The directive patterns (`3[01]|[1-2]\d|0[1-9]|[1-9]`
for `%d`, `1[0-2]|0[1-9]|[1-9]` for `%m`) accept exactly the one- or
two-digit numerals in range except `0`/`00`; since the following format
character is never a digit, greedy two-digit reading plus the caller's
range check (which rejects 0) is equivalent. -/
def read1or2Digits : List Char → Option (Nat × List Char)
  | [] => none
  | [c1] => if c1.isDigit then some (digitVal c1, []) else none
  | c1 :: c2 :: rest =>
    if c1.isDigit then
      if c2.isDigit then some (10 * digitVal c1 + digitVal c2, rest)
      else some (digitVal c1, c2 :: rest)
    else none

/-- `strptime`'s `%Y` component: exactly four digits (pattern `\d\d\d\d`). -/
def read4Digits : List Char → Option (Nat × List Char)
  | c1 :: c2 :: c3 :: c4 :: rest =>
    if c1.isDigit ∧ c2.isDigit ∧ c3.isDigit ∧ c4.isDigit then
      some (1000 * digitVal c1 + 100 * digitVal c2 + 10 * digitVal c3 +
        digitVal c4, rest)
    else none
  | _ => none

/-- Range checks done by the directive patterns (month 1-12, day 1-31)
together with the `datetime` constructor's calendar validation. -/
def checkDate (y m d : Nat) : Option PDate :=
  if 1 ≤ y ∧ y ≤ 9999 ∧ 1 ≤ m ∧ m ≤ 12 ∧ 1 ≤ d ∧ d ≤ daysInMonth y m then
    some ⟨y, m, d⟩
  else none

/-- `datetime.strptime(s, "%Y-%m-%d")`. -/
def strptimeYMD (s : List Char) : Option PDate :=
  match read4Digits s with
  | some (y, '-' :: r1) =>
    match read1or2Digits r1 with
    | some (m, '-' :: r2) =>
      match read1or2Digits r2 with
      | some (d, []) => checkDate y m d
      | _ => none
    | _ => none
  | _ => none

/-- `datetime.strptime(s, "%d<sep>%m<sep>%Y")` with `sep` either `/` or `-`. -/
def strptimeDMY (sep : Char) (s : List Char) : Option PDate :=
  match read1or2Digits s with
  | some (d, c1 :: r1) =>
    if c1 = sep then
      match read1or2Digits r1 with
      | some (m, c2 :: r2) =>
        if c2 = sep then
          match read4Digits r2 with
          | some (y, []) => checkDate y m d
          | _ => none
        else none
      | _ => none
    else none
  | _ => none

/-- `parse_date_str` (src lines 30-40): `none` models a missing/NaN value;
the formats `%Y-%m-%d`, `%d/%m/%Y`, `%d-%m-%Y` are tried in order and
`today` (a parameter, since `datetime.today()` is read from the clock) is
the silent fallback. -/
def parse_date_str (today : PDate) (value : Option (List Char)) : PDate :=
  match value with
  | none => today
  | some v =>
    let s := pyStrip v
    match strptimeYMD s with
    | some d => d
    | none =>
      match strptimeDMY '/' s with
      | some d => d
      | none =>
        match strptimeDMY '-' s with
        | some d => d
        | none => today

/-! Rendering of dates, as produced by `date.strftime` with zero padding
(`%Y-%m-%d` at src lines 186 and 443; the two `DD/MM/YYYY` and `DD-MM-YYYY`
shapes are the legacy input formats named by the spec). -/

def digitChar (n : Nat) : Char := Char.ofNat (48 + n)

def pad2 (n : Nat) : List Char := [digitChar (n / 10), digitChar (n % 10)]

def pad4 (n : Nat) : List Char :=
  [digitChar (n / 1000), digitChar (n / 100 % 10), digitChar (n / 10 % 10),
    digitChar (n % 10)]

/-- Canonical rendering `YYYY-MM-DD`. -/
def renderYMD (d : PDate) : List Char :=
  pad4 d.year ++ ('-' :: (pad2 d.month ++ ('-' :: pad2 d.day)))

/-- Rendering `DD<sep>MM<sep>YYYY`. -/
def renderDMY (sep : Char) (d : PDate) : List Char :=
  pad2 d.day ++ (sep :: (pad2 d.month ++ (sep :: pad4 d.year)))

example : parse_date_str ⟨2020, 1, 1⟩ (some "2024-06-01".toList)
    = ⟨2024, 6, 1⟩ := by decide
example : parse_date_str ⟨2020, 1, 1⟩ (some "01/06/2024".toList)
    = ⟨2024, 6, 1⟩ := by decide
example : parse_date_str ⟨2020, 1, 1⟩ (some "01-06-2024".toList)
    = ⟨2024, 6, 1⟩ := by decide
example : parse_date_str ⟨2020, 1, 1⟩ (some "2023-02-29".toList)
    = ⟨2020, 1, 1⟩ := by decide
example : parse_date_str ⟨2020, 1, 1⟩ (some "2024-02-29".toList)
    = ⟨2024, 2, 29⟩ := by decide
example : parse_date_str ⟨2020, 1, 1⟩ (some "garbage".toList)
    = ⟨2020, 1, 1⟩ := by decide

theorem digitChar_isDigit (n : Nat) (h : n < 10) :
    (digitChar n).isDigit = true := by
  interval_cases n <;> decide

theorem digitVal_digitChar (n : Nat) (h : n < 10) :
    digitVal (digitChar n) = n := by
  interval_cases n <;> decide

theorem digitChar_not_space (n : Nat) (h : n < 10) :
    isSpaceChar (digitChar n) = false := by
  interval_cases n <;> decide

theorem daysInMonth_le_31 (y m : Nat) : daysInMonth y m ≤ 31 := by
  rw [daysInMonth]
  split
  · split
    · omega
    · omega
  · split
    · omega
    · omega

theorem dropWhile_eq_self_of (p : Char → Bool) (l : List Char)
    (h : ∀ c ∈ l, p c = false) : l.dropWhile p = l := by
  cases l with
  | nil => rfl
  | cons a t => simp [List.dropWhile_cons, h a (List.mem_cons_self a t)]

theorem pyStrip_eq_self (l : List Char)
    (h : ∀ c ∈ l, isSpaceChar c = false) : pyStrip l = l := by
  rw [pyStrip, dropWhile_eq_self_of _ _ h, dropWhile_eq_self_of,
    List.reverse_reverse]
  intro c hc
  exact h c (List.mem_reverse.mp hc)

theorem read1or2Digits_pad2 (n : Nat) (hn : n ≤ 99) (rest : List Char) :
    read1or2Digits (pad2 n ++ rest) = some (n, rest) := by
  have h1 : n / 10 < 10 := by omega
  have h2 : n % 10 < 10 := by omega
  simp [pad2, read1or2Digits, digitChar_isDigit _ h1, digitChar_isDigit _ h2,
    digitVal_digitChar _ h1, digitVal_digitChar _ h2]
  omega

theorem read4Digits_pad4 (n : Nat) (hn : n ≤ 9999) (rest : List Char) :
    read4Digits (pad4 n ++ rest) = some (n, rest) := by
  have h1 : n / 1000 < 10 := by omega
  have h2 : n / 100 % 10 < 10 := by omega
  have h3 : n / 10 % 10 < 10 := by omega
  have h4 : n % 10 < 10 := by omega
  simp [pad4, read4Digits, digitChar_isDigit _ h1, digitChar_isDigit _ h2,
    digitChar_isDigit _ h3, digitChar_isDigit _ h4, digitVal_digitChar _ h1,
    digitVal_digitChar _ h2, digitVal_digitChar _ h3, digitVal_digitChar _ h4]
  omega

theorem renderYMD_no_space (d : PDate) (h : validDate d = true) :
    pyStrip (renderYMD d) = renderYMD d := by
  simp only [validDate, decide_eq_true_eq] at h
  have hy : d.year ≤ 9999 := h.2.1
  have hm : d.month ≤ 12 := h.2.2.2.1
  have hd31 : d.day ≤ 31 :=
    le_trans h.2.2.2.2.2 (daysInMonth_le_31 d.year d.month)
  apply pyStrip_eq_self
  intro c hc
  simp only [renderYMD, pad4, pad2, List.cons_append, List.nil_append,
    List.mem_cons, List.not_mem_nil, or_false] at hc
  rcases hc with rfl | rfl | rfl | rfl | rfl | rfl | rfl | rfl | rfl | rfl
  · exact digitChar_not_space _ (by omega)
  · exact digitChar_not_space _ (by omega)
  · exact digitChar_not_space _ (by omega)
  · exact digitChar_not_space _ (by omega)
  · decide
  · exact digitChar_not_space _ (by omega)
  · exact digitChar_not_space _ (by omega)
  · decide
  · exact digitChar_not_space _ (by omega)
  · exact digitChar_not_space _ (by omega)

theorem renderDMY_no_space (sep : Char) (hsep : isSpaceChar sep = false)
    (d : PDate) (h : validDate d = true) :
    pyStrip (renderDMY sep d) = renderDMY sep d := by
  simp only [validDate, decide_eq_true_eq] at h
  have hy : d.year ≤ 9999 := h.2.1
  have hm : d.month ≤ 12 := h.2.2.2.1
  have hd31 : d.day ≤ 31 :=
    le_trans h.2.2.2.2.2 (daysInMonth_le_31 d.year d.month)
  apply pyStrip_eq_self
  intro c hc
  simp only [renderDMY, pad4, pad2, List.cons_append, List.nil_append,
    List.mem_cons, List.not_mem_nil, or_false] at hc
  rcases hc with rfl | rfl | rfl | rfl | rfl | rfl | rfl | rfl | rfl | rfl
  · exact digitChar_not_space _ (by omega)
  · exact digitChar_not_space _ (by omega)
  · exact hsep
  · exact digitChar_not_space _ (by omega)
  · exact digitChar_not_space _ (by omega)
  · exact hsep
  · exact digitChar_not_space _ (by omega)
  · exact digitChar_not_space _ (by omega)
  · exact digitChar_not_space _ (by omega)
  · exact digitChar_not_space _ (by omega)

theorem strptimeYMD_render (d : PDate) (h : validDate d = true) :
    strptimeYMD (renderYMD d) = some d := by
  simp only [validDate, decide_eq_true_eq] at h
  obtain ⟨h1, h2, h3, h4, h5, h6⟩ := h
  have hd31 : d.day ≤ 31 := le_trans h6 (daysInMonth_le_31 d.year d.month)
  have e1 := read4Digits_pad4 d.year (by omega)
    ('-' :: (pad2 d.month ++ ('-' :: pad2 d.day)))
  have e2 := read1or2Digits_pad2 d.month (by omega) ('-' :: pad2 d.day)
  have e3 := read1or2Digits_pad2 d.day (by omega) []
  rw [List.append_nil] at e3
  simp only [renderYMD, strptimeYMD, e1, e2, e3, checkDate]
  rw [if_pos ⟨h1, h2, h3, h4, h5, h6⟩]

theorem strptimeDMY_render (sep : Char) (d : PDate) (h : validDate d = true) :
    strptimeDMY sep (renderDMY sep d) = some d := by
  simp only [validDate, decide_eq_true_eq] at h
  obtain ⟨h1, h2, h3, h4, h5, h6⟩ := h
  have hd31 : d.day ≤ 31 := le_trans h6 (daysInMonth_le_31 d.year d.month)
  have e1 := read1or2Digits_pad2 d.day (by omega)
    (sep :: (pad2 d.month ++ (sep :: pad4 d.year)))
  have e2 := read1or2Digits_pad2 d.month (by omega) (sep :: pad4 d.year)
  have e3 := read4Digits_pad4 d.year (by omega) []
  rw [List.append_nil] at e3
  simp only [renderDMY, strptimeDMY, e1, e2, e3, eq_self_iff_true, if_true,
    checkDate]
  rw [if_pos ⟨h1, h2, h3, h4, h5, h6⟩]

theorem strptimeYMD_renderDMY (sep : Char) (hsep : sep.isDigit = false)
    (d : PDate) : strptimeYMD (renderDMY sep d) = none := by
  simp only [renderDMY, pad2, pad4, List.cons_append, List.nil_append,
    strptimeYMD, read4Digits, hsep]
  simp

theorem strptimeDMY_slash_on_dash (d : PDate) (h : validDate d = true) :
    strptimeDMY '/' (renderDMY '-' d) = none := by
  simp only [validDate, decide_eq_true_eq] at h
  have hd31 : d.day ≤ 31 :=
    le_trans h.2.2.2.2.2 (daysInMonth_le_31 d.year d.month)
  have e1 := read1or2Digits_pad2 d.day (by omega)
    ('-' :: (pad2 d.month ++ ('-' :: pad4 d.year)))
  simp only [renderDMY, strptimeDMY, e1]
  simp

/-- C8: `parse_date` round-trips through all three supported formats
(`YYYY-MM-DD`, `DD/MM/YYYY`, `DD-MM-YYYY`), and for missing input or input
matching none of the formats it returns today's date without failing. -/
theorem C8_parse_date (today d : PDate) (h : validDate d = true) :
    parse_date_str today (some (renderYMD d)) = d ∧
    parse_date_str today (some (renderDMY '/' d)) = d ∧
    parse_date_str today (some (renderDMY '-' d)) = d ∧
    parse_date_str today none = today ∧
    ∀ s : List Char, strptimeYMD (pyStrip s) = none →
      strptimeDMY '/' (pyStrip s) = none →
      strptimeDMY '-' (pyStrip s) = none →
      parse_date_str today (some s) = today := by
  refine ⟨?_, ?_, ?_, rfl, ?_⟩
  · simp only [parse_date_str, renderYMD_no_space d h, strptimeYMD_render d h]
  · simp only [parse_date_str, renderDMY_no_space '/' (by decide) d h,
      strptimeYMD_renderDMY '/' (by decide) d, strptimeDMY_render '/' d h]
  · simp only [parse_date_str, renderDMY_no_space '-' (by decide) d h,
      strptimeYMD_renderDMY '-' (by decide) d, strptimeDMY_slash_on_dash d h,
      strptimeDMY_render '-' d h]
  · intro s hy hslash hdash
    simp only [parse_date_str, hy, hslash, hdash]

/-- Witness for C8 at the concrete date 2024-06-01. -/
theorem C8_parse_date_witness :
    parse_date_str ⟨2020, 1, 1⟩ (some (renderYMD ⟨2024, 6, 1⟩))
      = ⟨2024, 6, 1⟩ :=
  (C8_parse_date ⟨2020, 1, 1⟩ ⟨2024, 6, 1⟩ (by decide)).1

/-! ## The catch-log table (`COLUMNS`, `load_data`, `save_data`,
src lines 13-27 and 84-106)

A pandas `DataFrame` is modelled as a list of column names plus rows of
`(column, cell)` pairs; reading a cell (`row[col]`, first matching column)
and the operations the source uses (`col in df.columns`, `df[col] = ""`,
`df[COLUMNS]`, `pd.concat`, `df.drop`, `df.loc` assignment) are defined
below.  The CSV file is `Option DataFrame` (`none` when `DATA_FILE` does
not exist); its cell values are kept as the text that the `;`-separated
file stores. -/

/-- One table row: `(column name, cell value)` pairs. -/
abbrev Row := List (String × String)

structure DataFrame where
  cols : List String
  rows : List Row
deriving DecidableEq

/-- The canonical column list (src lines 13-27). -/
def COLUMNS : List String :=
  ["date", "heure", "espece", "taille_cm", "poids", "unite_poids", "spot",
    "type_leurre", "nom_leurre", "conditions", "remis_a_leau", "commentaire",
    "photo_fichier"]

/-- `row[col]`: the first cell stored under `col`, empty when absent. -/
def getCell : Row → String → String
  | [], _ => ""
  | p :: r, c => if p.1 = c then p.2 else getCell r c

/-- `df[c] = ""` for a column `c` not yet present. -/
def addEmptyCol (df : DataFrame) (c : String) : DataFrame :=
  ⟨df.cols ++ [c], df.rows.map (fun r => r ++ [(c, "")])⟩

/-- `df[cs]`: select the columns `cs`, in that order. -/
def selectCols (df : DataFrame) (cs : List String) : DataFrame :=
  ⟨cs, df.rows.map (fun r => cs.map (fun c => (c, getCell r c)))⟩

/-- The back-fill loop of `load_data` (src lines 92-94). -/
def backfill (df : DataFrame) : DataFrame :=
  COLUMNS.foldl (fun d c => if c ∈ d.cols then d else addEmptyCol d c) df

/-- `load_data` (src lines 84-96): read the CSV if it exists, otherwise an
empty table with the canonical columns; ensure every canonical column
exists; return `df[COLUMNS]`. -/
def load_data (disk : Option DataFrame) : DataFrame :=
  selectCols (backfill (disk.getD ⟨COLUMNS, []⟩)) COLUMNS

/-- `save_data` (src lines 99-106): write the table, unless the target is
locked (`PermissionError`), in which case an error message is shown
(second component `true`) and the file is left as it was. -/
def save_data (locked : Bool) (disk : Option DataFrame) (df : DataFrame) :
    Option DataFrame × Bool :=
  if locked then (disk, true) else (some df, false)

/-- Rows aligned with the header, as produced by `pd.read_csv`. -/
def DataFrame.WF (df : DataFrame) : Prop :=
  ∀ r ∈ df.rows, r.map Prod.fst = df.cols

theorem getCell_of_not_key (r : Row) (c : String)
    (h : ∀ p ∈ r, p.1 ≠ c) : getCell r c = "" := by
  induction r with
  | nil => rfl
  | cons p t ih =>
    rw [getCell, if_neg (h p (List.mem_cons_self p t))]
    exact ih fun q hq => h q (List.mem_cons_of_mem p hq)

theorem getCell_append_empty (r : Row) (c x : String)
    (h : getCell r x = "") : getCell (r ++ [(c, "")]) x = "" := by
  induction r with
  | nil =>
    rw [List.nil_append, getCell]
    split
    · rfl
    · rfl
  | cons p t ih =>
    rw [List.cons_append, getCell]
    rw [getCell] at h
    split
    · rename_i hp
      rw [if_pos hp] at h
      exact h
    · rename_i hp
      rw [if_neg hp] at h
      exact ih h

/-- Every cell outside the original header stays empty through the
back-fill loop. -/
theorem foldl_backfill_empty (cols0 : List String) :
    ∀ (cs : List String) (df : DataFrame),
      (∀ r ∈ df.rows, ∀ c, c ∉ cols0 → getCell r c = "") →
      ∀ r ∈ (cs.foldl
          (fun d c => if c ∈ d.cols then d else addEmptyCol d c) df).rows,
        ∀ c, c ∉ cols0 → getCell r c = ""
  | [], _, h => h
  | c :: cs, df, h => by
    rw [List.foldl_cons]
    apply foldl_backfill_empty cols0 cs
    by_cases hc : c ∈ df.cols
    · rw [if_pos hc]; exact h
    · rw [if_neg hc]
      intro r hr x hx
      simp only [addEmptyCol, List.mem_map] at hr
      obtain ⟨r0, hr0, rfl⟩ := hr
      exact getCell_append_empty r0 c x (h r0 hr0 x hx)

/-- Reading back a key from a row built by projection. -/
theorem getCell_map_proj (g : String → String) :
    ∀ (cs : List String) (c : String), c ∈ cs →
      getCell (cs.map (fun x => (x, g x))) c = g c
  | [], c, h => absurd h (List.not_mem_nil c)
  | k :: ks, c, h => by
    rw [List.map_cons, getCell]
    by_cases hk : k = c
    · rw [if_pos hk, hk]
    · rw [if_neg hk]
      refine getCell_map_proj g ks c ?_
      rcases List.mem_cons.mp h with h1 | h1
      · exact absurd h1.symm hk
      · exact h1

theorem load_data_some (df : DataFrame) :
    load_data (some df) = selectCols (backfill df) COLUMNS := rfl

theorem selectCols_rows (df : DataFrame) (cs : List String) :
    (selectCols df cs).rows
      = df.rows.map (fun r0 => cs.map (fun c => (c, getCell r0 c))) := rfl

/-- C5: `load()` of a missing file is the empty table with the canonical
columns; for any persisted table the result carries exactly the canonical
column set in canonical order, with each row keyed by `COLUMNS` and every
column missing from the persisted header back-filled with the empty
value. -/
theorem C5_load_backfills (df : DataFrame) (hwf : df.WF) :
    (load_data none).cols = COLUMNS ∧
    (load_data none).rows = [] ∧
    (load_data (some df)).cols = COLUMNS ∧
    ∀ r ∈ (load_data (some df)).rows,
      r.map Prod.fst = COLUMNS ∧
      ∀ c ∈ COLUMNS, c ∉ df.cols → getCell r c = "" := by
  refine ⟨rfl, by decide, rfl, ?_⟩
  intro r hr
  rw [load_data_some, selectCols_rows] at hr
  obtain ⟨r1, hr1, rfl⟩ := List.mem_map.mp hr
  constructor
  · simp [List.map_map, Function.comp_def]
  · intro c hcC hc
    have hbase : ∀ r0 ∈ df.rows, ∀ x, x ∉ df.cols → getCell r0 x = "" := by
      intro r0 hr0 x hx
      apply getCell_of_not_key
      intro p hp hpx
      apply hx
      rw [← hpx, ← hwf r0 hr0]
      exact List.mem_map_of_mem Prod.fst hp
    rw [backfill] at hr1
    have hall := foldl_backfill_empty df.cols COLUMNS df hbase r1 hr1 c hc
    exact (getCell_map_proj (getCell r1) COLUMNS c hcC).trans hall

/-- Witness for C5 at a concrete one-column legacy table. -/
theorem C5_load_backfills_witness :
    (load_data (some ⟨["espece"], [[("espece", "Bar")]]⟩)).cols = COLUMNS :=
  (C5_load_backfills ⟨["espece"], [[("espece", "Bar")]]⟩
    (by intro r hr; simp at hr; rw [hr]; rfl)).2.2.1

/-! ## Photo store (`enregistrer_photo`, src lines 109-119) -/

/-- The fixed attachments directory, `PHOTOS_DIR = Path("photos")`. -/
def PHOTOS_DIR : List Char := ['p', 'h', 'o', 't', 'o', 's']

/-- The stored photo files: `(path, binary content)` in write order. -/
abbrev PhotoStore := List (List Char × List Char)

/-- `enregistrer_photo` (src lines 109-119): a missing upload is a no-op
returning the empty reference; otherwise the upload's bytes are written to
`photos/<timestamp>_<original name with each space replaced by an
underscore>` and that path is returned.  `timestamp` is the
`%Y%m%d_%H%M%S` wall-clock value, passed as a parameter. -/
def enregistrer_photo (timestamp : List Char) (store : PhotoStore)
    (file : Option (List Char × List Char)) : PhotoStore × List Char :=
  match file with
  | none => (store, [])
  | some (name, content) =>
    let safe_name := name.map (fun c => if c = ' ' then '_' else c)
    let filepath := PHOTOS_DIR ++ ('/' :: (timestamp ++ ('_' :: safe_name)))
    (store ++ [(filepath, content)], filepath)

/-- Resolution of `.` and `..` components of a relative path, as the
operating system performs it when the file at that path is opened. -/
def resolveComps (comps : List (List Char)) : List (List Char) :=
  comps.foldl
    (fun acc c =>
      if c = [] ∨ c = ['.'] then acc
      else if c = ['.', '.'] then
        match acc.getLast? with
        | none => [['.', '.']]
        | some l => if l = ['.', '.'] then acc ++ [c] else acc.dropLast
      else acc ++ [c]) []

/-- The path resolves to something strictly below the `photos` directory. -/
def insidePhotos (p : List Char) : Bool :=
  match resolveComps (splitOnChar '/' p) with
  | d :: _ :: _ => if d = PHOTOS_DIR then true else false
  | _ => false

/-- The path resolves to a direct child of the `photos` directory. -/
def directChildOfPhotos (p : List Char) : Bool :=
  match resolveComps (splitOnChar '/' p) with
  | [d, f] => if d = PHOTOS_DIR ∧ f ≠ [] then true else false
  | _ => false

/-- C10 counterexample: the original name `"x/../b.jpg"` contains a path
separator, yet the returned reference resolves to `photos/b.jpg`, which is
inside the attachments directory — in fact a direct child of it.  This
refutes the claim that every original name containing a path separator
yields a reference outside the attachments directory. -/
theorem C10_counterexample :
    '/' ∈ "x/../b.jpg".toList ∧
    insidePhotos (enregistrer_photo "20240601_063000".toList []
      (some ("x/../b.jpg".toList, []))).2 = true ∧
    directChildOfPhotos (enregistrer_photo "20240601_063000".toList []
      (some ("x/../b.jpg".toList, []))).2 = true := by
  refine ⟨by decide, by decide, by decide⟩

/-! ## More facts about `load_data` -/

theorem load_data_eq (disk : Option DataFrame) :
    load_data disk
      = selectCols (backfill (disk.getD ⟨COLUMNS, []⟩)) COLUMNS := rfl

theorem load_data_cols (disk : Option DataFrame) :
    (load_data disk).cols = COLUMNS := rfl

theorem COLUMNS_nodup : COLUMNS.Nodup := by decide

theorem load_data_wf (disk : Option DataFrame) : (load_data disk).WF := by
  intro r hr
  rw [load_data_eq, selectCols_rows] at hr
  obtain ⟨r1, _, rfl⟩ := List.mem_map.mp hr
  rw [load_data_cols]
  simp [List.map_map, Function.comp_def]

/-- Reading every key of a well-formed row back, in order, reproduces the
row. -/
theorem selectRow_id (r : Row) :
    ∀ (cs : List String), r.map Prod.fst = cs → cs.Nodup →
      cs.map (fun c => (c, getCell r c)) = r := by
  induction r with
  | nil =>
    intro cs hkeys _
    rw [← hkeys]
    rfl
  | cons p t ih =>
    intro cs hkeys hnd
    subst hkeys
    simp only [List.map_cons] at hnd ⊢
    obtain ⟨hp1, hnd2⟩ := List.nodup_cons.mp hnd
    have hhead : getCell (p :: t) p.1 = p.2 := by
      rw [getCell, if_pos rfl]
    have htail : (List.map Prod.fst t).map
          (fun c => (c, getCell (p :: t) c))
        = (List.map Prod.fst t).map (fun c => (c, getCell t c)) := by
      apply List.map_congr_left
      intro c hc
      have hne : p.1 ≠ c := fun he => hp1 (he ▸ hc)
      rw [getCell, if_neg hne]
    rw [hhead, htail, ih (List.map Prod.fst t) rfl hnd2]

theorem foldl_backfill_id :
    ∀ (cs : List String) (df : DataFrame), (∀ c ∈ cs, c ∈ df.cols) →
      cs.foldl (fun d c => if c ∈ d.cols then d else addEmptyCol d c) df = df
  | [], _, _ => rfl
  | c :: cs, df, h => by
    rw [List.foldl_cons, if_pos (h c (List.mem_cons_self c cs))]
    exact foldl_backfill_id cs df fun x hx => h x (List.mem_cons_of_mem c hx)

theorem backfill_id (df : DataFrame) (h : ∀ c ∈ COLUMNS, c ∈ df.cols) :
    backfill df = df := by
  rw [backfill]
  exact foldl_backfill_id COLUMNS df h

theorem selectCols_id (df : DataFrame) (hc : df.cols = COLUMNS)
    (hwf : df.WF) : selectCols df COLUMNS = df := by
  obtain ⟨cols, rows⟩ := df
  simp only at hc
  subst hc
  have hwf2 : ∀ r ∈ rows, r.map Prod.fst = COLUMNS := hwf
  simp only [selectCols, DataFrame.mk.injEq, true_and]
  calc rows.map (fun r => COLUMNS.map (fun c => (c, getCell r c)))
      = rows.map id := by
        apply List.map_congr_left
        intro r hr
        exact selectRow_id r COLUMNS (hwf2 r hr) COLUMNS_nodup
    _ = rows := List.map_id rows

/-- `load_data` is the identity on a table already in canonical shape
(the situation right after the application builds a table to save). -/
theorem load_data_wf_id (df : DataFrame) (hc : df.cols = COLUMNS)
    (hwf : df.WF) : load_data (some df) = df := by
  rw [load_data_some, backfill_id df (fun c hmem => by rw [hc]; exact hmem),
    selectCols_id df hc hwf]

/-! ## The interactive flows of `main` (src lines 131-468)

`datetime.now()` values (the default date, the photo timestamp) and the
lock state of the CSV file are parameters; `st.session` widget values are
the fields of `FormFields`.  A flow returns the session's persistent state
(disk and photo directory), the in-memory table `df` it ends with, and
which error messages were shown. -/

structure Session where
  disk : Option DataFrame
  photos : PhotoStore
deriving DecidableEq

/-- The form values of the add and edit panels (src lines 146-175 and
356-429): all free-text fields as entered, the date picker value, the raw
time text, and the optional photo upload `(original name, bytes)`. -/
structure FormFields where
  date_prise : PDate
  heure_str : String
  espece : String
  taille : String
  poids : String
  unite_poids : String
  spot : String
  type_leurre : String
  nom_leurre : String
  conditions : String
  remis_a_leau : String
  commentaire : String
  photo : Option (List Char × List Char)
deriving DecidableEq

/-- `heure.strftime("%H:%M")`. -/
def fmtHM (h m : Nat) : List Char := pad2 h ++ (':' :: pad2 m)

/-- The `new_row` dictionary (src lines 185-199). -/
def newRow (inp : FormFields) (h m : Nat) (photo_path : List Char) : Row :=
  [("date", (renderYMD inp.date_prise).asString),
    ("heure", (fmtHM h m).asString),
    ("espece", inp.espece),
    ("taille_cm", inp.taille),
    ("poids", inp.poids),
    ("unite_poids", inp.unite_poids),
    ("spot", inp.spot),
    ("type_leurre", inp.type_leurre),
    ("nom_leurre", inp.nom_leurre),
    ("conditions", inp.conditions),
    ("remis_a_leau", inp.remis_a_leau),
    ("commentaire", inp.commentaire),
    ("photo_fichier", photo_path.asString)]

/-- Result of one flow: session state, the in-memory `df` the flow ends
with, whether the invalid-time error was shown, and whether the
save-failure error was shown. -/
structure FlowResult where
  sess : Session
  df : DataFrame
  timeError : Bool
  saveWarning : Bool
deriving DecidableEq

/-- The add-a-catch flow (src lines 177-205): parse the entered time
(on failure show an error and change nothing), store the photo, append
`new_row` via `pd.concat`, `save_data`, clear the cache and reload. -/
def add_flow (locked : Bool) (ts : List Char) (s : Session)
    (inp : FormFields) : FlowResult :=
  match parse_time_from_text inp.heure_str with
  | none => ⟨s, load_data s.disk, true, false⟩
  | some (h, m) =>
    let pr := enregistrer_photo ts s.photos inp.photo
    let df1 : DataFrame := ⟨(load_data s.disk).cols,
      (load_data s.disk).rows ++ [newRow inp h m pr.2]⟩
    let sv := save_data locked s.disk df1
    ⟨⟨sv.1, pr.1⟩, load_data sv.1, false, sv.2⟩

/-- `df.loc[i, c] = v` on one row: overwrite the cells stored under `c`. -/
def setCell (r : Row) (c v : String) : Row :=
  r.map (fun p => if p.1 = c then (p.1, v) else p)

/-- Apply a function to the row at one position. -/
def updateRow : List Row → Nat → (Row → Row) → List Row
  | [], _, _ => []
  | r :: rs, 0, f => f r :: rs
  | r :: rs, n + 1, f => r :: updateRow rs n f

/-- The thirteen `df.loc[selected_id, col] = value` assignments
(src lines 443-455). -/
def editAssignments (inp : FormFields) (h m : Nat)
    (photo_path : String) : List (String × String) :=
  [("date", (renderYMD inp.date_prise).asString),
    ("heure", (fmtHM h m).asString),
    ("espece", inp.espece),
    ("taille_cm", inp.taille),
    ("poids", inp.poids),
    ("unite_poids", inp.unite_poids),
    ("spot", inp.spot),
    ("type_leurre", inp.type_leurre),
    ("nom_leurre", inp.nom_leurre),
    ("conditions", inp.conditions),
    ("remis_a_leau", inp.remis_a_leau),
    ("commentaire", inp.commentaire),
    ("photo_fichier", photo_path)]

/-- The edit flow (src lines 433-460): parse the edited time (on failure
show an error and change nothing), otherwise keep or replace the photo,
overwrite the selected row's fields with `df.loc` assignments, `save_data`,
clear the cache and reload. -/
def edit_flow (locked : Bool) (ts : List Char) (s : Session)
    (selected_id : Nat) (inp : FormFields) : FlowResult :=
  let df0 := load_data s.disk
  let row := df0.rows.getD selected_id []
  match parse_time_from_text inp.heure_str with
  | none => ⟨s, df0, true, false⟩
  | some (h, m) =>
    let pr : PhotoStore × List Char :=
      match inp.photo with
      | none => (s.photos, (getCell row "photo_fichier").toList)
      | some f => enregistrer_photo ts s.photos (some f)
    let df1 : DataFrame := ⟨df0.cols,
      updateRow df0.rows selected_id (fun r =>
        (editAssignments inp h m pr.2.asString).foldl
          (fun r0 p => setCell r0 p.1 p.2) r)⟩
    let sv := save_data locked s.disk df1
    ⟨⟨sv.1, pr.1⟩, load_data sv.1, false, sv.2⟩

/-- The delete flow (src lines 463-468): `df.drop(index=selected_id)`
followed by `reset_index(drop=True)`, `save_data`, cache clear and
rerun (which reloads). -/
def delete_flow (locked : Bool) (s : Session) (selected_id : Nat) :
    FlowResult :=
  let df0 := load_data s.disk
  let df1 : DataFrame := ⟨df0.cols, df0.rows.eraseIdx selected_id⟩
  let sv := save_data locked s.disk df1
  ⟨⟨sv.1, s.photos⟩, load_data sv.1, false, sv.2⟩

/-- The table built by the add flow just before saving: the loaded table
with `new_row` appended (`pd.concat`, src line 201). -/
def appendedDf (ts : List Char) (s : Session) (inp : FormFields)
    (h m : Nat) : DataFrame :=
  ⟨(load_data s.disk).cols,
    (load_data s.disk).rows
      ++ [newRow inp h m (enregistrer_photo ts s.photos inp.photo).2]⟩

theorem add_flow_some (locked : Bool) (ts : List Char) (s : Session)
    (inp : FormFields) (h m : Nat)
    (hp : parse_time_from_text inp.heure_str = some (h, m)) :
    add_flow locked ts s inp =
      ⟨⟨(save_data locked s.disk (appendedDf ts s inp h m)).1,
          (enregistrer_photo ts s.photos inp.photo).1⟩,
        load_data (save_data locked s.disk (appendedDf ts s inp h m)).1,
        false,
        (save_data locked s.disk (appendedDf ts s inp h m)).2⟩ := by
  simp only [add_flow, hp, appendedDf]

/-- C2: appending a record and reloading makes that record the last row of
the loaded table, and it carries exactly the canonical columns. -/
theorem C2_append_then_load (ts : List Char) (s : Session) (inp : FormFields)
    (h m : Nat) (hp : parse_time_from_text inp.heure_str = some (h, m)) :
    (add_flow false ts s inp).df.rows.getLast?
      = some (newRow inp h m (enregistrer_photo ts s.photos inp.photo).2) ∧
    (newRow inp h m (enregistrer_photo ts s.photos inp.photo).2).map Prod.fst
      = COLUMNS := by
  constructor
  · have hsv : (save_data false s.disk (appendedDf ts s inp h m)).1
        = some (appendedDf ts s inp h m) := rfl
    have h1 : (add_flow false ts s inp).df
        = load_data (some (appendedDf ts s inp h m)) := by
      rw [add_flow_some false ts s inp h m hp, hsv]
    have h2 : load_data (some (appendedDf ts s inp h m))
        = appendedDf ts s inp h m := by
      apply load_data_wf_id
      · rfl
      · intro r hr
        have hr2 : r ∈ (load_data s.disk).rows
            ++ [newRow inp h m (enregistrer_photo ts s.photos inp.photo).2] :=
          hr
        rcases List.mem_append.mp hr2 with h3 | h3
        · exact load_data_wf s.disk r h3
        · rw [List.mem_singleton] at h3
          subst h3
          rfl
    rw [h1, h2]
    exact List.getLast?_concat _
  · rfl

/-- A full concrete add-form input (the defaults at src lines 146-175). -/
def sampleFields : FormFields :=
  { date_prise := ⟨2024, 6, 1⟩
    heure_str := "06:30"
    espece := "Bar"
    taille := "42.0"
    poids := "1.2"
    unite_poids := "kg"
    spot := "Le Havre"
    type_leurre := "Jig"
    nom_leurre := "X"
    conditions := ""
    remis_a_leau := "Oui"
    commentaire := ""
    photo := none }

/-- Witness for C2 on an empty store. -/
theorem C2_append_then_load_witness :
    (add_flow false [] ⟨none, []⟩ sampleFields).df.rows.getLast?
      = some (newRow sampleFields 6 30
          (enregistrer_photo [] [] sampleFields.photo).2) :=
  (C2_append_then_load [] ⟨none, []⟩ sampleFields 6 30 (by decide)).1

/-- C1 counterexample: with the store locked, the add flow on an empty
store reports the save failure but ends with an empty reloaded table —
the record appended just before the failed save is NOT observable in the
session's state afterwards, contrary to the claim. -/
theorem C1_counterexample :
    (add_flow true [] ⟨none, []⟩ sampleFields).saveWarning = true ∧
    (add_flow true [] ⟨none, []⟩ sampleFields).df.rows = [] := by
  exact ⟨by decide, by decide⟩

/-- C1 amended: when the save hits `StoreLocked`, the failure is reported
as a user-visible warning rather than crashing and the persisted file is
untouched, but the flow then reloads the table from the store, so the
in-session table afterwards equals the pre-append loaded table — the
record appended just before the failed save is no longer observable in the
session's state (durability and the session copy are both lost until the
user re-submits). -/
theorem C1_save_failure (ts : List Char) (s : Session) (inp : FormFields)
    (h m : Nat) (hp : parse_time_from_text inp.heure_str = some (h, m)) :
    (add_flow true ts s inp).saveWarning = true ∧
    (add_flow true ts s inp).timeError = false ∧
    (add_flow true ts s inp).sess.disk = s.disk ∧
    (add_flow true ts s inp).df = load_data s.disk := by
  rw [add_flow_some true ts s inp h m hp]
  exact ⟨rfl, rfl, rfl, rfl⟩

/-- Witness for the amended C1 on an empty store. -/
theorem C1_save_failure_witness :
    (add_flow true [] ⟨none, []⟩ sampleFields).saveWarning = true :=
  (C1_save_failure [] ⟨none, []⟩ sampleFields 6 30 (by decide)).1

/-- C4: when the entered time does not reduce to `HH:MM`, both the create
and the edit commit report the error and mutate nothing: the session
(persisted table and photo store) is exactly as before and the in-memory
table is the unchanged loaded table. -/
theorem C4_invalid_time_no_mutation (locked : Bool) (ts : List Char)
    (s : Session) (inp einp : FormFields) (idx : Nat)
    (hbad : parse_time_from_text inp.heure_str = none)
    (hbad2 : parse_time_from_text einp.heure_str = none) :
    (add_flow locked ts s inp).sess = s ∧
    (add_flow locked ts s inp).timeError = true ∧
    (add_flow locked ts s inp).df = load_data s.disk ∧
    (edit_flow locked ts s idx einp).sess = s ∧
    (edit_flow locked ts s idx einp).timeError = true ∧
    (edit_flow locked ts s idx einp).df = load_data s.disk := by
  have h1 : add_flow locked ts s inp = ⟨s, load_data s.disk, true, false⟩ := by
    simp only [add_flow, hbad]
  have h2 : edit_flow locked ts s idx einp
      = ⟨s, load_data s.disk, true, false⟩ := by
    simp only [edit_flow, hbad2]
  rw [h1, h2]
  exact ⟨rfl, rfl, rfl, rfl, rfl, rfl⟩

/-- The spec's invalid time example. -/
def badTimeFields : FormFields := { sampleFields with heure_str := "25:99" }

/-- Witness for C4 at the invalid time `"25:99"`. -/
theorem C4_invalid_time_no_mutation_witness :
    (add_flow false [] ⟨none, []⟩ badTimeFields).sess = ⟨none, []⟩ :=
  (C4_invalid_time_no_mutation false [] ⟨none, []⟩ badTimeFields
    badTimeFields 0 (by decide) (by decide)).1

theorem eraseIdx_length_succ {α : Type} :
    ∀ (l : List α) (i : Nat), i < l.length →
      (l.eraseIdx i).length + 1 = l.length
  | [], _, h => absurd h (by simp)
  | _ :: _, 0, _ => by simp [List.eraseIdx]
  | a :: t, i + 1, h => by
    simp only [List.eraseIdx, List.length_cons]
    rw [eraseIdx_length_succ t i (Nat.lt_of_succ_lt_succ h)]

theorem getElem?_eraseIdx_lt {α : Type} :
    ∀ (l : List α) (i j : Nat), j < i → (l.eraseIdx i)[j]? = l[j]?
  | [], _, _, _ => by simp
  | _ :: _, 0, j, hj => absurd hj (Nat.not_lt_zero j)
  | _ :: _, _ + 1, 0, _ => by simp [List.eraseIdx]
  | a :: t, i + 1, j + 1, hj => by
    simp only [List.eraseIdx, List.getElem?_cons_succ]
    exact getElem?_eraseIdx_lt t i j (Nat.lt_of_succ_lt_succ hj)

theorem getElem?_eraseIdx_ge {α : Type} :
    ∀ (l : List α) (i j : Nat), i ≤ j → (l.eraseIdx i)[j]? = l[j + 1]?
  | [], _, _, _ => by simp
  | _ :: _, 0, j, _ => by simp [List.eraseIdx]
  | _ :: _, _ + 1, 0, hj => absurd hj (by omega)
  | a :: t, i + 1, j + 1, hj => by
    simp only [List.eraseIdx, List.getElem?_cons_succ]
    exact getElem?_eraseIdx_ge t i j (Nat.le_of_succ_le_succ hj)

theorem delete_flow_eq (locked : Bool) (s : Session) (i : Nat) :
    delete_flow locked s i =
      ⟨⟨(save_data locked s.disk ⟨(load_data s.disk).cols,
          (load_data s.disk).rows.eraseIdx i⟩).1, s.photos⟩,
        load_data (save_data locked s.disk ⟨(load_data s.disk).cols,
          (load_data s.disk).rows.eraseIdx i⟩).1,
        false,
        (save_data locked s.disk ⟨(load_data s.disk).cols,
          (load_data s.disk).rows.eraseIdx i⟩).2⟩ := by
  simp only [delete_flow]

/- While proving facts about `delete_flow` on a symbolic session,
definitional unfolding of `backfill` (a foldl over the thirteen columns)
must be prevented: on a stuck table every step triples the term.  The
lemmas above characterise `backfill`, so nothing is lost. -/
attribute [irreducible] backfill

/-- C9: deleting a record removes exactly the row at the given position,
compacts the remaining positions preserving the relative order of every
other record (positions below `i` are unchanged, positions above shift
down by one), and leaves the photo store untouched. -/
theorem C9_delete (s : Session) (i : Nat)
    (hi : i < (load_data s.disk).rows.length) :
    (delete_flow false s i).df.rows = (load_data s.disk).rows.eraseIdx i ∧
    (delete_flow false s i).df.rows.length + 1
      = (load_data s.disk).rows.length ∧
    (∀ j, j < i → (delete_flow false s i).df.rows[j]?
      = (load_data s.disk).rows[j]?) ∧
    (∀ j, i ≤ j → (delete_flow false s i).df.rows[j]?
      = (load_data s.disk).rows[j + 1]?) ∧
    (delete_flow false s i).sess.photos = s.photos := by
  have hsv : (save_data false s.disk ⟨(load_data s.disk).cols,
      (load_data s.disk).rows.eraseIdx i⟩).1
      = some ⟨(load_data s.disk).cols,
          (load_data s.disk).rows.eraseIdx i⟩ := rfl
  have hdf : (delete_flow false s i).df
      = load_data (some ⟨(load_data s.disk).cols,
          (load_data s.disk).rows.eraseIdx i⟩) := by
    rw [delete_flow_eq, hsv]
  have h2 : load_data (some (⟨(load_data s.disk).cols,
      (load_data s.disk).rows.eraseIdx i⟩ : DataFrame))
      = ⟨(load_data s.disk).cols, (load_data s.disk).rows.eraseIdx i⟩ := by
    apply load_data_wf_id
    · rfl
    · intro r hr
      have hr2 : r ∈ (load_data s.disk).rows.eraseIdx i := hr
      have hr3 : r ∈ (load_data s.disk).rows :=
        (List.eraseIdx_sublist _ i).subset hr2
      exact load_data_wf s.disk r hr3
  have hrows : (delete_flow false s i).df.rows
      = (load_data s.disk).rows.eraseIdx i := by
    rw [hdf, h2]
  refine ⟨hrows, ?_, ?_, ?_, rfl⟩
  · rw [hrows]
    exact eraseIdx_length_succ _ i hi
  · intro j hj
    rw [hrows]
    exact getElem?_eraseIdx_lt _ i j hj
  · intro j hj
    rw [hrows]
    exact getElem?_eraseIdx_ge _ i j hj

/-- A concrete one-row canonical table. -/
def demoDf : DataFrame := ⟨COLUMNS, [COLUMNS.map (fun c => (c, ""))]⟩

/-- Witness for C9 deleting position 0 of a one-row store. -/
theorem C9_delete_witness :
    (delete_flow false ⟨some demoDf, []⟩ 0).sess.photos = [] :=
  (C9_delete ⟨some demoDf, []⟩ 0 (by
    rw [show (⟨some demoDf, []⟩ : Session).disk = some demoDf from rfl,
      load_data_wf_id demoDf rfl (by
        show ∀ r ∈ demoDf.rows, r.map Prod.fst = demoDf.cols
        decide)]
    decide)).2.2.2.2

/-! ## Filters (src lines 226-232) -/

/-- One `if <selection>: filtered = filtered[filtered[field].isin(sel)]`
step: a non-empty selection keeps the rows whose field value is in it; an
empty selection is skipped. -/
def applyFilter (rows : List Row) (field : String)
    (accepted : List String) : List Row :=
  if accepted.isEmpty then rows
  else rows.filter (fun r => accepted.contains (getCell r field))

/-- The filter block (src lines 226-232): species, then spot, then lure
name. -/
def filterRecords (rows : List Row)
    (espF spotF leurreF : List String) : List Row :=
  applyFilter (applyFilter (applyFilter rows "espece" espF) "spot" spotF)
    "nom_leurre" leurreF

theorem decide_eq_beq_string (a b : String) : decide (a = b) = (a == b) := by
  cases h : a == b
  · exact decide_eq_false (ne_of_beq_false h)
  · exact decide_eq_true (eq_of_beq h)

theorem applyFilter_eq (rows : List Row) (field : String)
    (accepted : List String) :
    applyFilter rows field accepted
      = rows.filter (fun r =>
          accepted.isEmpty || accepted.contains (getCell r field)) := by
  cases accepted with
  | nil => simp [applyFilter]
  | cons a t => simp [applyFilter]

/-- C6: filtering keeps exactly the records whose field value belongs to
the accepted set of each criterion (conjunction over the three criteria),
an empty accepted set is a no-op, and selecting only `"Bar"` as species
keeps exactly the Bar records. -/
theorem C6_filter (rows : List Row) (espF spotF leurreF : List String) :
    filterRecords rows espF spotF leurreF
      = rows.filter (fun r =>
          (espF.isEmpty || espF.contains (getCell r "espece")) &&
          (spotF.isEmpty || spotF.contains (getCell r "spot")) &&
          (leurreF.isEmpty || leurreF.contains (getCell r "nom_leurre"))) ∧
    filterRecords rows [] [] [] = rows ∧
    filterRecords rows ["Bar"] [] []
      = rows.filter (fun r => getCell r "espece" == "Bar") := by
  refine ⟨?_, ?_, ?_⟩
  · rw [filterRecords, applyFilter_eq, applyFilter_eq, applyFilter_eq,
      List.filter_filter, List.filter_filter]
    simp only [Bool.and_comm, Bool.and_left_comm, Bool.and_assoc]
  · simp [filterRecords, applyFilter]
  · rw [filterRecords]
    simp only [applyFilter, List.isEmpty_nil, if_true, List.isEmpty_cons]
    simp [List.contains_cons]
    simp only [decide_eq_beq_string]

/-! ## Grouped statistics (src lines 260-268) -/

/-- Round half to even (the rounding of Python / numpy / pandas). -/
def roundHalfEven (q : ℚ) : ℤ :=
  if q - q.floor < 1 / 2 then q.floor
  else if 1 / 2 < q - q.floor then q.floor + 1
  else if q.floor % 2 = 0 then q.floor else q.floor + 1

/-- `.round(1)`. -/
def round1 (q : ℚ) : ℚ := (roundHalfEven (q * 10) : ℚ) / 10

/-- One group's aggregation (`agg` at src lines 262-266, on the columns the
block reads: the group key and `taille_cm`): the row count and the mean
size, rounded to one decimal. -/
def groupStats (rows : List (String × ℚ)) (key : String) :
    String × Nat × ℚ :=
  let grp := rows.filter (fun r => r.1 == key)
  (key, grp.length,
    round1 ((grp.map Prod.snd).sum / (grp.length : ℚ)))

/-- Insertion into a list kept in descending count order
(`sort_values("nb_prises", ascending=False)`). -/
def insertByCount (x : String × Nat × ℚ) :
    List (String × Nat × ℚ) → List (String × Nat × ℚ)
  | [] => [x]
  | y :: ys => if y.2.1 ≤ x.2.1 then x :: y :: ys else y :: insertByCount x ys

def sortByCountDesc : List (String × Nat × ℚ) → List (String × Nat × ℚ)
  | [] => []
  | x :: xs => insertByCount x (sortByCountDesc xs)

/-- The stats block (src lines 260-268): group by the key, aggregate count
and mean size, order by descending count, round to one decimal. -/
def group_aggregate (rows : List (String × ℚ)) : List (String × Nat × ℚ) :=
  sortByCountDesc ((rows.map Prod.fst).dedup.map (groupStats rows))

theorem mem_insertByCount (x z : String × Nat × ℚ) :
    ∀ l : List (String × Nat × ℚ),
      z ∈ insertByCount x l ↔ z = x ∨ z ∈ l
  | [] => by simp [insertByCount]
  | y :: ys => by
    rw [insertByCount]
    split
    · simp [List.mem_cons]
    · rw [List.mem_cons, mem_insertByCount x z ys, List.mem_cons]
      tauto

theorem sorted_insertByCount (x : String × Nat × ℚ) :
    ∀ l : List (String × Nat × ℚ),
      List.Pairwise (fun a b => b.2.1 ≤ a.2.1) l →
      List.Pairwise (fun a b => b.2.1 ≤ a.2.1) (insertByCount x l)
  | [], _ => by simp [insertByCount]
  | y :: ys, h => by
    rw [insertByCount]
    obtain ⟨hy, hys⟩ := List.pairwise_cons.mp h
    split
    · rename_i hle
      refine List.Pairwise.cons ?_ h
      intro z hz
      rcases List.mem_cons.mp hz with rfl | hz2
      · exact hle
      · exact le_trans (hy z hz2) hle
    · rename_i hgt
      refine List.Pairwise.cons ?_ (sorted_insertByCount x ys hys)
      intro z hz
      rcases (mem_insertByCount x z ys).mp hz with rfl | hz2
      · exact le_of_not_le hgt
      · exact hy z hz2

theorem mem_sortByCountDesc (z : String × Nat × ℚ) :
    ∀ l : List (String × Nat × ℚ),
      z ∈ sortByCountDesc l ↔ z ∈ l
  | [] => Iff.rfl
  | x :: xs => by
    rw [sortByCountDesc, mem_insertByCount x z (sortByCountDesc xs),
      mem_sortByCountDesc z xs, List.mem_cons]

theorem sorted_sortByCountDesc :
    ∀ l : List (String × Nat × ℚ),
      List.Pairwise (fun a b => b.2.1 ≤ a.2.1) (sortByCountDesc l)
  | [] => List.Pairwise.nil
  | x :: xs => sorted_insertByCount x _ (sorted_sortByCountDesc xs)

/-- A concrete interleaving of two groups: 5 records for key `"A"`
(sizes 40-44) and 3 for key `"B"` (sizes 30, 31, 35). -/
def demoStatsRows : List (String × ℚ) :=
  [("B", 30), ("A", 40), ("B", 31), ("A", 41), ("A", 42), ("B", 35),
    ("A", 43), ("A", 44)]

/-- C7: `group_aggregate` produces, for every group, the record count and
the mean of the sizes rounded to one decimal, in descending count order;
on the concrete two-group input with counts 3 and 5 the 5-count group
comes first. -/
theorem C7_group_aggregate (rows : List (String × ℚ)) :
    (∀ p ∈ group_aggregate rows,
        p.2.1 = (rows.filter (fun r => r.1 == p.1)).length ∧
        p.2.2 = round1
          (((rows.filter (fun r => r.1 == p.1)).map Prod.snd).sum
            / ((rows.filter (fun r => r.1 == p.1)).length : ℚ))) ∧
    List.Pairwise (fun a b => b.2.1 ≤ a.2.1) (group_aggregate rows) ∧
    (∀ r ∈ rows, ∃ p ∈ group_aggregate rows, p.1 = r.1) ∧
    (group_aggregate demoStatsRows).map (fun p => (p.1, p.2.1))
      = [("A", 5), ("B", 3)] := by
  refine ⟨?_, sorted_sortByCountDesc _, ?_, by decide⟩
  · intro p hp
    rw [group_aggregate, mem_sortByCountDesc] at hp
    obtain ⟨k, _, rfl⟩ := List.mem_map.mp hp
    exact ⟨rfl, rfl⟩
  · intro r hr
    refine ⟨groupStats rows r.1, ?_, rfl⟩
    rw [group_aggregate, mem_sortByCountDesc]
    exact List.mem_map_of_mem _
      (List.mem_dedup.mpr (List.mem_map_of_mem Prod.fst hr))

/-- C10 amended: sanitisation replaces exactly the space characters of the
original name by underscores and alters nothing else, and the returned
reference is exactly the attachments directory joined with
`<timestamp>_<sanitised name>`; the written file is recorded under that
same path.  A name containing a path separator does not, however,
necessarily place the reference outside the attachments directory: it may
resolve back inside (`"x/../b.jpg"`), and only a name whose `..`
components climb above the directory (such as `"x/../../evil.jpg"`)
resolves outside it. -/
theorem C10_photo_reference (timestamp : List Char) (store : PhotoStore)
    (name content : List Char) :
    (enregistrer_photo timestamp store (some (name, content))).2
      = PHOTOS_DIR ++ ('/' :: (timestamp ++ ('_' ::
          name.map (fun c => if c = ' ' then '_' else c)))) ∧
    (enregistrer_photo timestamp store (some (name, content))).1
      = store ++ [(PHOTOS_DIR ++ ('/' :: (timestamp ++ ('_' ::
          name.map (fun c => if c = ' ' then '_' else c)))), content)] ∧
    (enregistrer_photo timestamp store none) = (store, []) ∧
    insidePhotos (enregistrer_photo "20240601_063000".toList []
      (some ("x/../../evil.jpg".toList, []))).2 = false ∧
    insidePhotos (enregistrer_photo "20240601_063000".toList []
      (some ("a b.jpg".toList, []))).2 = true := by
  exact ⟨rfl, rfl, rfl, by decide, by decide⟩

end CarnetPrises
